import Mathlib

/-!
Verification of the fahren multi-tenant resource layer: a shallow embedding of
the credential manager, the Postgres/Redis isolation strategies and the
pgbouncer-aware pool routing, with theorems checking the specification's
claims against the embedded code.
-/

namespace Fahren

/-! ### JavaScript string replacement with a string pattern

`String.prototype.replace` with a string pattern replaces only the first
occurrence, and runs ECMAScript GetSubstitution over the replacement string:
`$$` is a dollar, `$&` the matched substring, a dollar followed by a backtick
the text before the match, a dollar followed by an apostrophe the text after
the match; any other `$` sequence stays literal (a string pattern has no
capture groups).  Lean's `String.replace` replaces every occurrence and
substitutes literally, so the JS behaviour is modelled explicitly on
character lists. -/

def squote : Char := Char.ofNat 39
def dquoteC : Char := Char.ofNat 34
def btickC : Char := Char.ofNat 96

/-- ECMAScript GetSubstitution restricted to a string pattern (no capture
groups): scan the replacement; the Bool records a pending unconsumed `$`. -/
def getSubstitutionAux (matched before after : List Char) :
    List Char → Bool → List Char
  | [], false => []
  | [], true => ['$']
  | c :: rest, false =>
    if c = '$' then getSubstitutionAux matched before after rest true
    else c :: getSubstitutionAux matched before after rest false
  | c :: rest, true =>
    if c = '$' then '$' :: getSubstitutionAux matched before after rest false
    else if c = '&' then matched ++ getSubstitutionAux matched before after rest false
    else if c = btickC then before ++ getSubstitutionAux matched before after rest false
    else if c = squote then after ++ getSubstitutionAux matched before after rest false
    else '$' :: c :: getSubstitutionAux matched before after rest false

/-- First-occurrence replacement; `pre` accumulates (reversed) the scanned
prefix, which GetSubstitution needs as the before-match context. -/
def replaceFirstAux (pat rep : List Char) (pre : List Char) : List Char → List Char
  | [] => pre.reverse
  | c :: cs =>
    if pat.isPrefixOf (c :: cs) then
      pre.reverse
        ++ getSubstitutionAux pat pre.reverse ((c :: cs).drop pat.length) rep false
        ++ (c :: cs).drop pat.length
    else replaceFirstAux pat rep (c :: pre) cs

def jsReplaceFirst (s pat rep : String) : String :=
  String.mk (replaceFirstAux pat.data rep.data [] s.data)

theorem getSubstitutionAux_no_dollar (matched before after rep : List Char)
    (h : ∀ c ∈ rep, c ≠ '$') :
    getSubstitutionAux matched before after rep false = rep := by
  induction rep with
  | nil => rfl
  | cons c rest ih =>
    simp only [getSubstitutionAux]
    rw [if_neg (h c (by simp)), ih (fun x hx => h x (by simp [hx]))]

theorem replaceFirstAux_append (p : Char) (ps rep l₁ l₂ pre : List Char)
    (h : ∀ c ∈ l₁, c ≠ p) (hrep : ∀ c ∈ rep, c ≠ '$') :
    replaceFirstAux (p :: ps) rep pre (l₁ ++ (p :: ps) ++ l₂)
      = pre.reverse ++ (l₁ ++ rep ++ l₂) := by
  induction l₁ generalizing pre with
  | nil =>
    simp only [List.nil_append, List.cons_append, replaceFirstAux]
    rw [if_pos]
    · have hdrop : (p :: (ps ++ l₂)).drop (p :: ps).length = l₂ := by
        have hform : p :: (ps ++ l₂) = (p :: ps) ++ l₂ := rfl
        rw [hform, List.drop_left]
      simp only [List.append_eq]
      rw [hdrop, getSubstitutionAux_no_dollar _ _ _ rep hrep]
      simp [List.append_assoc]
    · exact List.isPrefixOf_iff_prefix.mpr (by simp)
  | cons a l₁ ih =>
    have ha : a ≠ p := h a (by simp)
    simp only [List.cons_append, replaceFirstAux]
    rw [if_neg]
    · have := ih (a :: pre) (fun c hc => h c (by simp [hc]))
      simp only [List.cons_append, List.append_eq] at this ⊢
      rw [this]
      simp [List.reverse_cons, List.append_assoc]
    · simp only [List.isPrefixOf, Bool.and_eq_true, beq_iff_eq]
      intro hcontra
      exact ha hcontra.1.symm

theorem string_eq_of_data {a b : String} (h : a.data = b.data) : a = b := by
  cases a; cases b; simp_all

theorem string_append_data (a b : String) : (a ++ b).data = a.data ++ b.data := by
  cases a; cases b; rfl

/-! ### Credential Manager: secret path resolution
(`TenantsSecretsManager.getPath` in packages/core/src/index.ts and
`PostgresResource.getPattern` in packages/postgres/src/strategies/base.ts). -/

def DEFAULT_SECRETS_PATTERN : String := "/tenants/{tenantId}/postgres/connection"

def DEFAULT_SECRETS_WITH_RESOURCE_ID_PATTERN : String :=
  "/tenants/{tenantId}/postgres/{resourceId}/connection"

/-- `PostgresResource.getPattern`: the default pattern depends on whether the
resource carries an id. -/
def postgresGetPattern (resourceId : Option String) : String :=
  match resourceId with
  | some _ => DEFAULT_SECRETS_WITH_RESOURCE_ID_PATTERN
  | none => DEFAULT_SECRETS_PATTERN

/-- `TenantsSecretsManager` constructor: `this.pattern = options.pattern || defaultPattern`. -/
def managerPattern (optionsPattern : Option String) (defaultPattern : String) : String :=
  optionsPattern.getD defaultPattern

/-- Whether `pat` occurs as a contiguous sublist of `l`. -/
def containsSub (pat : List Char) : List Char → Bool
  | [] => pat.isPrefixOf []
  | c :: cs => pat.isPrefixOf (c :: cs) || containsSub pat cs

/-- `TenantsSecretsManager.getPath`: substitute `{tenantId}`, and `{resourceId}`
too exactly when the resource id is present.  JS `replace` substitutes the
first occurrence only and applies GetSubstitution to the replacement. -/
def getPath (patr : String) (resourceId : Option String) (tenantId : String) : String :=
  match resourceId with
  | some rid => jsReplaceFirst (jsReplaceFirst patr "{tenantId}" tenantId) "{resourceId}" rid
  | none => jsReplaceFirst patr "{tenantId}" tenantId

theorem getPath_with_id (t r : String)
    (ht1 : ∀ c ∈ t.data, c ≠ '{') (ht2 : ∀ c ∈ t.data, c ≠ '$')
    (hr : ∀ c ∈ r.data, c ≠ '$') :
    getPath DEFAULT_SECRETS_WITH_RESOURCE_ID_PATTERN (some r) t
      = "/tenants/" ++ t ++ "/postgres/" ++ r ++ "/connection" := by
  have hsplit : DEFAULT_SECRETS_WITH_RESOURCE_ID_PATTERN.data
      = "/tenants/".data ++ ('{' :: "tenantId\x7d".data) ++ "/postgres/{resourceId}/connection".data := by
    rfl
  have h1 : replaceFirstAux ('{' :: "tenantId\x7d".data) t.data []
      DEFAULT_SECRETS_WITH_RESOURCE_ID_PATTERN.data
      = "/tenants/".data ++ t.data ++ "/postgres/{resourceId}/connection".data := by
    rw [hsplit]
    have := replaceFirstAux_append '{' "tenantId\x7d".data t.data
      "/tenants/".data "/postgres/{resourceId}/connection".data [] (by decide) ht2
    simpa using this
  have h2 : "/tenants/".data ++ t.data ++ "/postgres/{resourceId}/connection".data
      = ("/tenants/".data ++ t.data ++ "/postgres/".data) ++ ('{' :: "resourceId\x7d".data)
        ++ "/connection".data := by
    simp only [List.append_assoc]
    rfl
  have h3 : replaceFirstAux ('{' :: "resourceId\x7d".data) r.data []
      ("/tenants/".data ++ t.data ++ "/postgres/{resourceId}/connection".data)
      = ("/tenants/".data ++ t.data ++ "/postgres/".data) ++ r.data ++ "/connection".data := by
    rw [h2]
    have hchars : ∀ c ∈ "/tenants/".data ++ t.data ++ "/postgres/".data, c ≠ '{' := by
      intro c hc
      rcases List.mem_append.mp hc with hc' | hc'
      · rcases List.mem_append.mp hc' with hc'' | hc''
        · exact (by decide : ∀ x ∈ "/tenants/".data, x ≠ '{') c hc''
        · exact ht1 c hc''
      · exact (by decide : ∀ x ∈ "/postgres/".data, x ≠ '{') c hc'
    have := replaceFirstAux_append '{' "resourceId\x7d".data r.data
      ("/tenants/".data ++ t.data ++ "/postgres/".data) "/connection".data [] hchars hr
    simpa using this
  apply string_eq_of_data
  show replaceFirstAux "{resourceId}".data r.data []
      (replaceFirstAux "{tenantId}".data t.data []
        DEFAULT_SECRETS_WITH_RESOURCE_ID_PATTERN.data)
      = _
  have hpat1 : "{tenantId}".data = '{' :: "tenantId\x7d".data := rfl
  have hpat2 : "{resourceId}".data = '{' :: "resourceId\x7d".data := rfl
  rw [hpat1, h1, hpat2, h3]
  simp only [string_append_data, List.append_assoc]

theorem getPath_without_id (t : String) (ht2 : ∀ c ∈ t.data, c ≠ '$') :
    getPath DEFAULT_SECRETS_PATTERN none t
      = "/tenants/" ++ t ++ "/postgres/connection" := by
  have hsplit : DEFAULT_SECRETS_PATTERN.data
      = "/tenants/".data ++ ('{' :: "tenantId\x7d".data) ++ "/postgres/connection".data := by
    rfl
  apply string_eq_of_data
  show replaceFirstAux "{tenantId}".data t.data [] DEFAULT_SECRETS_PATTERN.data = _
  have hpat1 : "{tenantId}".data = '{' :: "tenantId\x7d".data := rfl
  have h1 := replaceFirstAux_append '{' "tenantId\x7d".data t.data
    "/tenants/".data "/postgres/connection".data [] (by decide) ht2
  rw [hpat1, hsplit, h1]
  simp only [string_append_data, List.append_assoc, List.reverse_nil, List.nil_append]

/-- C6 fails on the code: JS `replace` runs GetSubstitution over the
replacement and substitutes sequentially, so the path is not always the
pattern with `{tenantId}` replaced by the tenant id.  For the tenant id
`a$&b` the `$&` expands to the matched `{tenantId}` placeholder, and for the
tenant id `x{resourceId}y` under a resource with an id, the later
`{resourceId}` replacement hits the occurrence inside the substituted tenant
id instead of the pattern's own placeholder. -/
theorem c6_simultaneous_substitution_counterexample :
    getPath (managerPattern none (postgresGetPattern none)) none "a$&b"
      ≠ "/tenants/" ++ "a$&b" ++ "/postgres/connection"
    ∧ getPath (managerPattern none (postgresGetPattern (some "r1"))) (some "r1") "x{resourceId}y"
      ≠ "/tenants/" ++ "x{resourceId}y" ++ "/postgres/" ++ "r1" ++ "/connection" := by
  decide

/-- C6 amended: the secret path is the configured pattern with `{tenantId}`
replaced by the tenant id — and `{resourceId}` additionally replaced by the
resource id exactly when the owning Resource carries an id, the shorter
default pattern lacking that placeholder being used otherwise — for every
tenant id free of `$` (no GetSubstitution expansion) and of `{` (no capture
of the later `{resourceId}` replacement), with a `$`-free resource id. -/
theorem c6_secret_path_resolution_amended (t r : String)
    (ht : ∀ c ∈ t.data, c ≠ '{' ∧ c ≠ '$') (hr : ∀ c ∈ r.data, c ≠ '$') :
    getPath (managerPattern none (postgresGetPattern (some r))) (some r) t
      = "/tenants/" ++ t ++ "/postgres/" ++ r ++ "/connection"
    ∧ getPath (managerPattern none (postgresGetPattern none)) none t
      = "/tenants/" ++ t ++ "/postgres/connection"
    ∧ containsSub "{resourceId}".data (postgresGetPattern none).data = false := by
  refine ⟨getPath_with_id t r (fun c hc => (ht c hc).1) (fun c hc => (ht c hc).2) hr,
    getPath_without_id t (fun c hc => (ht c hc).2), by decide⟩

/-- Witness for the amended C6 at tenantId `acme`, resourceId `r1`. -/
theorem c6_secret_path_resolution_amended_witness :
    getPath (managerPattern none (postgresGetPattern (some "r1"))) (some "r1") "acme"
      = "/tenants/" ++ "acme" ++ "/postgres/" ++ "r1" ++ "/connection" :=
  (c6_secret_path_resolution_amended "acme" "r1" (by decide) (by decide)).1

/-! ### Generic association-map operations (JS `Map.get` / `Map.set`) -/

def assocFind {α : Type} (l : List (String × α)) (k : String) : Option α :=
  (l.find? (fun kv => kv.1 == k)).map Prod.snd

def assocSet {α : Type} (l : List (String × α)) (k : String) (v : α) : List (String × α) :=
  if (l.find? (fun kv => kv.1 == k)).isSome then
    l.map (fun kv => if kv.1 == k then (k, v) else kv)
  else l ++ [(k, v)]

/-! ### Redis strategies (packages/redis/src/strategies/base.ts)

`RedisAclManagement.deleteTenant` runs `super.deleteTenant` (delete every key
under the tenant keyspace), then `ACL DELUSER`, then removes the stored
descriptor. -/

def REDIS_DEFAULT_SECRETS_PATTERN : String := "/tenants/{tenantId}/redis/connection"

def REDIS_DEFAULT_SECRETS_WITH_RESOURCE_ID_PATTERN : String :=
  "/tenants/{tenantId}/redis/{resourceId}/connection"

/-- `RedisResource.getPattern`; unlike the Postgres variant it substitutes
`{resourceId}` already at pattern-selection time. -/
def redisGetPattern (resourceId : Option String) : String :=
  match resourceId with
  | some i => jsReplaceFirst REDIS_DEFAULT_SECRETS_WITH_RESOURCE_ID_PATTERN "{resourceId}" i
  | none => REDIS_DEFAULT_SECRETS_PATTERN

/-- `RedisResource.buildKeyspacePrefix`.  The `RedisResource` constructor
forces `config.keyPrefix = undefined`, so management instances always take the
second branch; the parameter is kept for fidelity. -/
def buildKeyspacePrefix (configKeyPrefix : Option String) (tenantId : String) : String :=
  match configKeyPrefix with
  | some kp => "tenant:" ++ tenantId ++ ":" ++ kp ++ ":"
  | none => "tenant:" ++ tenantId ++ ":"

def strIsPrefixOf (p s : String) : Bool := p.data.isPrefixOf s.data

structure RedisState where
  keys : List String
  aclUsers : List String
  secrets : List (String × String)
  deriving DecidableEq

inductive RedisAction where
  | delKey (key : String)
  | aclDelUser (username : String)
  | deleteSecret (path : String)
  deriving DecidableEq

/-- `RedisManagementBase.deleteTenant`: list the keys matching
`<keyspacePrefix>*` and delete them in a pipeline (issued only when at least
one key matched). -/
def redisBaseDeleteTenant (st : RedisState) (tenantId : String) :
    RedisState × List RedisAction :=
  let pfx := buildKeyspacePrefix none tenantId
  let ks := st.keys.filter (fun k => strIsPrefixOf pfx k)
  if ks.length > 0 then
    ({ st with keys := st.keys.filter (fun k => !(strIsPrefixOf pfx k)) },
      ks.map RedisAction.delKey)
  else (st, [])

/-- `RedisAclManagement.deleteTenant`: keys first, then the ACL user, then the
stored descriptor. -/
def redisAclDeleteTenant (resourceId : Option String) (st : RedisState)
    (tenantId : String) : RedisState × List RedisAction :=
  let r1 := redisBaseDeleteTenant st tenantId
  let st2 := { r1.1 with aclUsers := r1.1.aclUsers.erase tenantId }
  let path := getPath (managerPattern none (redisGetPattern resourceId)) resourceId tenantId
  let st3 := { st2 with secrets := st2.secrets.filter (fun kv => kv.1 != path) }
  (st3, r1.2 ++ [RedisAction.aclDelUser tenantId, RedisAction.deleteSecret path])

/-- C9: Redis ACL `deleteTenant` performs its three steps in order: delete all
keys under `tenant:<tenantId>:` first (while the ACL user still exists in the
pre-state), then delete the ACL user, then remove the stored descriptor; and
the resulting state has no key left under the tenant prefix. -/
theorem c9_acl_delete_tenant_order (rid : Option String) (st : RedisState) (tid : String)
    (hne : st.keys.filter (fun k => strIsPrefixOf (buildKeyspacePrefix none tid) k) ≠ []) :
    (redisAclDeleteTenant rid st tid).2
      = (st.keys.filter (fun k => strIsPrefixOf (buildKeyspacePrefix none tid) k)).map
          RedisAction.delKey
        ++ [RedisAction.aclDelUser tid,
            RedisAction.deleteSecret
              (getPath (managerPattern none (redisGetPattern rid)) rid tid)]
    ∧ (∀ k ∈ (redisAclDeleteTenant rid st tid).1.keys,
        strIsPrefixOf (buildKeyspacePrefix none tid) k = false)
    ∧ (redisAclDeleteTenant rid st tid).1.aclUsers = st.aclUsers.erase tid := by
  have hpos : 0 < (st.keys.filter
      (fun k => strIsPrefixOf (buildKeyspacePrefix none tid) k)).length :=
    List.length_pos.mpr hne
  refine ⟨?_, ?_, ?_⟩
  · simp only [redisAclDeleteTenant, redisBaseDeleteTenant]
    rw [if_pos hpos]
  · intro k hk
    simp only [redisAclDeleteTenant, redisBaseDeleteTenant] at hk
    rw [if_pos hpos] at hk
    simp only [List.mem_filter] at hk
    simpa using hk.2
  · simp only [redisAclDeleteTenant, redisBaseDeleteTenant]
    rw [if_pos hpos]

/-- Witness for C9: one tenant key present, one foreign key untouched. -/
theorem c9_acl_delete_tenant_order_witness :
    (redisAclDeleteTenant none
        ⟨["tenant:acme:k1", "tenant:other:k2"], ["acme"], [("/tenants/acme/redis/connection", "v")]⟩
        "acme").2
      = ((["tenant:acme:k1", "tenant:other:k2"].filter
            (fun k => strIsPrefixOf (buildKeyspacePrefix none "acme") k)).map
          RedisAction.delKey)
        ++ [RedisAction.aclDelUser "acme",
            RedisAction.deleteSecret
              (getPath (managerPattern none (redisGetPattern none)) none "acme")] :=
  (c9_acl_delete_tenant_order none
    ⟨["tenant:acme:k1", "tenant:other:k2"], ["acme"], [("/tenants/acme/redis/connection", "v")]⟩
    "acme" (by decide)).1

/-! ### Per-tenant pool cache of the plain Postgres Tenants roles
(`PostgresDatabaseTenants` / `PostgresSchemaTenants`: `getClientFor`, `end`).

A pool is modelled by its creation index `pid` plus its `ended` flag; the
state carries the `pools` map and the next creation index. -/

structure PoolRec where
  pid : Nat
  ended : Bool
  deriving DecidableEq

structure PoolsState where
  pools : List (String × PoolRec)
  nextPid : Nat
  deriving DecidableEq

/-- `PostgresDatabaseTenants.getClientFor`: reuse the cached pool when present
(whether or not it has been ended), otherwise create a pool
(`initTenantPool`) and cache it under the tenant id. -/
def dbTenantsGetClientFor (st : PoolsState) (tid : String) : PoolRec × PoolsState :=
  match assocFind st.pools tid with
  | some p => (p, st)
  | none =>
    let p : PoolRec := ⟨st.nextPid, false⟩
    (p, { pools := assocSet st.pools tid p, nextPid := st.nextPid + 1 })

/-- `PostgresDatabaseTenants.end` / `PostgresSchemaTenants.end`: with a tenant
id, end that tenant's pool and delete its map entry; with no argument, end
every pool but leave all entries in the map. -/
def dbTenantsEnd (st : PoolsState) (tid? : Option String) : PoolsState :=
  match tid? with
  | some tid =>
    match assocFind st.pools tid with
    | some _ => { st with pools := st.pools.filter (fun kv => kv.1 != tid) }
    | none => st
  | none => { st with pools := st.pools.map (fun kv => (kv.1, { kv.2 with ended := true })) }

/-- C10: `end(tenantId)` closes that tenant's pool and removes its entry, so
the next `getClientFor` creates a fresh pool; `end()` with no argument ends
every pool but leaves the entries cached, so the next `getClientFor` returns
the already-ended cached pool and creates nothing new. -/
theorem c10_end_semantics (st : PoolsState) (t : String) (p : PoolRec)
    (h : assocFind st.pools t = some p) :
    assocFind (dbTenantsEnd st (some t)).pools t = none
    ∧ (dbTenantsGetClientFor (dbTenantsEnd st (some t)) t).1
        = ⟨(dbTenantsEnd st (some t)).nextPid, false⟩
    ∧ (dbTenantsGetClientFor (dbTenantsEnd st (some t)) t).2.nextPid = st.nextPid + 1
    ∧ (dbTenantsEnd st none).pools.map Prod.fst = st.pools.map Prod.fst
    ∧ assocFind (dbTenantsEnd st none).pools t = some { p with ended := true }
    ∧ (dbTenantsGetClientFor (dbTenantsEnd st none) t).1 = { p with ended := true }
    ∧ (dbTenantsGetClientFor (dbTenantsEnd st none) t).2 = dbTenantsEnd st none := by
  have hgone : assocFind (dbTenantsEnd st (some t)).pools t = none := by
    simp only [dbTenantsEnd, h]
    have hnone : List.find? (fun kv => kv.1 == t)
        (List.filter (fun kv => kv.1 != t) st.pools) = none := by
      rw [List.find?_eq_none]
      intro kv hkv
      have := (List.mem_filter.mp hkv).2
      simp only [bne_iff_ne, ne_eq] at this
      simp [this]
    simp [assocFind, hnone]
  have hended : assocFind (dbTenantsEnd st none).pools t = some { p with ended := true } := by
    simp only [dbTenantsEnd, assocFind, List.find?_map]
    simp only [assocFind] at h
    obtain ⟨kv, hfind, hsnd⟩ := Option.map_eq_some.mp h
    have : (List.find? ((fun kv => kv.1 == t) ∘ fun kv => (kv.1, { kv.2 with ended := true }))
        st.pools) = some kv := by
      simpa using hfind
    rw [this]
    simp [hsnd]
  refine ⟨hgone, ?_, ?_, ?_, hended, ?_, ?_⟩
  · simp [dbTenantsGetClientFor, hgone]
  · simp only [dbTenantsGetClientFor, hgone]
    simp only [dbTenantsEnd, h]
  · simp [dbTenantsEnd]
  · simp [dbTenantsGetClientFor, hended]
  · simp [dbTenantsGetClientFor, hended]

/-- Witness for C10 at a one-tenant state. -/
theorem c10_end_semantics_witness :
    assocFind (dbTenantsEnd ⟨[("t1", ⟨0, false⟩)], 1⟩ (some "t1")).pools "t1" = none
    ∧ (dbTenantsGetClientFor (dbTenantsEnd ⟨[("t1", ⟨0, false⟩)], 1⟩ none) "t1").1
        = { pid := 0, ended := true } := by
  have h := c10_end_semantics ⟨[("t1", ⟨0, false⟩)], 1⟩ "t1" ⟨0, false⟩ (by decide)
  exact ⟨h.1, h.2.2.2.2.2.1⟩

/-! ### PgBouncer Database Tenants role
(packages/postgres/src/pgbouncer/strategies/database.ts).

`PgBouncerDatabaseTenants.getClientFor` reads
`this.pools.get(tenantId) || (await this.initTenantPool(tenantId))`, and
neither it nor `initTenantPool` ever writes the created pool into
`this.pools`; only `this.poolsMode` is updated.  The state below mirrors
those two maps plus a count of `new Pool(...)` constructions. -/

structure PgbDescriptor where
  poolMode : String
  deriving DecidableEq

structure PgbDbTenantsState where
  pools : List (String × Nat)
  poolsMode : List (String × String)
  created : Nat
  deriving DecidableEq

/-- `PgBouncerDatabaseTenants.initTenantPool`: fetch the descriptor, record
its pool mode, construct a new `Pool` (creation index `st.created`), and
return it WITHOUT caching it in `pools`. -/
def pgbDbInitTenantPool (desc : PgbDescriptor) (st : PgbDbTenantsState) (tid : String) :
    Nat × PgbDbTenantsState :=
  (st.created,
    { st with poolsMode := assocSet st.poolsMode tid desc.poolMode,
              created := st.created + 1 })

/-- `PgBouncerDatabaseTenants.getClientFor`: take the cached pool if any —
else init one — then branch on the recorded pool mode. -/
def pgbDbGetClientFor (desc : PgbDescriptor) (st : PgbDbTenantsState) (tid : String) :
    Except String (Nat × PgbDbTenantsState) :=
  let r :=
    match assocFind st.pools tid with
    | some p => (p, st)
    | none => pgbDbInitTenantPool desc st tid
  match assocFind r.2.poolsMode tid with
  | some m =>
    if m == "session_mode" then Except.ok r
    else if m == "transaction_mode" then Except.ok r
    else Except.error "Invalid mode"
  | none => Except.error "Invalid mode"

/-- C1 fails on the code: starting from an empty `PgBouncerDatabaseTenants`
state, two consecutive `getClientFor` calls for the same tenant both construct
a pool (`created` reaches 2 and the two returned pools are distinct), because
the pool is never written back into the `pools` map. -/
theorem c1_pgbouncer_database_pool_not_cached :
    pgbDbGetClientFor ⟨"session_mode"⟩ ⟨[], [], 0⟩ "t1"
      = Except.ok (0, ⟨[], [("t1", "session_mode")], 1⟩)
    ∧ pgbDbGetClientFor ⟨"session_mode"⟩ ⟨[], [("t1", "session_mode")], 1⟩ "t1"
      = Except.ok (1, ⟨[], [("t1", "session_mode")], 2⟩) := by
  exact ⟨rfl, rfl⟩

/-! ### Postgres Database isolation: Management role
(src/strategies/database.ts and pgbouncer/strategies/database.ts).

The side effects of `createTenant`/`deleteTenant` are modelled as the ordered
list of actions issued against the database, the secret store and the log;
whitespace inside the SQL text is normalised. -/

def DEFAULT_TENANT_DB_PREFIX : String := "tenant_"
def DEFAULT_TENANT_ROLE_PREFIX : String := "tenant_"
def DEFAULT_TENANT_SCHEMA_PREFIX : String := "tenant_"

/-- `PostgresResource.generateDefaultTenantRoleName`. -/
def generateDefaultTenantRoleName (tenantId : String) (pre : Option String) : String :=
  match pre with
  | some p => p ++ tenantId
  | none => DEFAULT_TENANT_ROLE_PREFIX ++ tenantId

inductive DbAction where
  | query (sql : String)
  | storeSecret (path : String)
  | removeSecret (path : String)
  | warn (msg : String)
  deriving DecidableEq

structure DbProvisionOpts where
  dbPrefix : String
  template : Option String
  rolePrefix : String
  schemaNames : List String
  createIfNotExists : Bool
  deriving DecidableEq

def dq : String := "\""

/-- The per-schema grant block issued by `PostgresDatabaseManagement.createTenant`. -/
def databaseSchemaGrantsSql (schema roleName : String) : String :=
  "GRANT ALL ON SCHEMA " ++ dq ++ schema ++ dq ++ " TO " ++ dq ++ roleName ++ dq ++ "; "
    ++ "GRANT ALL PRIVILEGES ON ALL TABLES IN SCHEMA " ++ dq ++ schema ++ dq ++ " TO " ++ dq ++ roleName ++ dq ++ "; "
    ++ "GRANT ALL PRIVILEGES ON ALL SEQUENCES IN SCHEMA " ++ dq ++ schema ++ dq ++ " TO " ++ dq ++ roleName ++ dq ++ "; "
    ++ "GRANT ALL PRIVILEGES ON ALL FUNCTIONS IN SCHEMA " ++ dq ++ schema ++ dq ++ " TO " ++ dq ++ roleName ++ dq ++ "; "
    ++ "GRANT ALL PRIVILEGES ON ALL PROCEDURES IN SCHEMA " ++ dq ++ schema ++ dq ++ " TO " ++ dq ++ roleName ++ dq ++ "; "
    ++ "GRANT ALL PRIVILEGES ON ALL ROUTINES IN SCHEMA " ++ dq ++ schema ++ dq ++ " TO " ++ dq ++ roleName ++ dq ++ "; "
    ++ "ALTER DEFAULT PRIVILEGES IN SCHEMA " ++ dq ++ schema ++ dq ++ " GRANT ALL PRIVILEGES ON TABLES TO " ++ dq ++ roleName ++ dq ++ "; "
    ++ "ALTER DEFAULT PRIVILEGES IN SCHEMA " ++ dq ++ schema ++ dq ++ " GRANT ALL PRIVILEGES ON SEQUENCES TO " ++ dq ++ roleName ++ dq ++ "; "
    ++ "ALTER DEFAULT PRIVILEGES IN SCHEMA " ++ dq ++ schema ++ dq ++ " GRANT ALL PRIVILEGES ON FUNCTIONS TO " ++ dq ++ roleName ++ dq ++ "; "
    ++ "ALTER DEFAULT PRIVILEGES IN SCHEMA " ++ dq ++ schema ++ dq ++ " GRANT ALL PRIVILEGES ON ROUTINES TO " ++ dq ++ roleName ++ dq ++ ";"

/-- `PostgresDatabaseManagement.createTenant` (success path): CREATE DATABASE,
CREATE ROLE + database grant, store the descriptor, then on a fresh
connection to the new database the optional CREATE SCHEMA statements and the
per-schema grant blocks. -/
def postgresDatabaseCreateTenant (opts : DbProvisionOpts) (resourceId : Option String)
    (tenantId password : String) : List DbAction :=
  let databaseName := opts.dbPrefix ++ tenantId
  let roleName := generateDefaultTenantRoleName tenantId (some opts.rolePrefix)
  [ (match opts.template with
      | some tpl => DbAction.query ("CREATE DATABASE " ++ dq ++ databaseName ++ dq
          ++ " WITH TEMPLATE " ++ dq ++ tpl ++ dq ++ ";")
      | none => DbAction.query ("CREATE DATABASE " ++ dq ++ databaseName ++ dq ++ ";")),
    DbAction.query ("CREATE ROLE " ++ dq ++ roleName ++ dq ++ " WITH LOGIN PASSWORD '"
      ++ password ++ "';GRANT ALL PRIVILEGES ON DATABASE " ++ dq ++ databaseName ++ dq
      ++ " TO " ++ dq ++ roleName ++ dq ++ ";"),
    DbAction.storeSecret
      (getPath (managerPattern none (postgresGetPattern resourceId)) resourceId tenantId) ]
  ++ (if opts.createIfNotExists then
        opts.schemaNames.map
          (fun s => DbAction.query ("CREATE SCHEMA IF NOT EXISTS " ++ dq ++ s ++ dq ++ ";"))
      else [])
  ++ opts.schemaNames.map
      (fun s => DbAction.query (databaseSchemaGrantsSql s
        (generateDefaultTenantRoleName tenantId (some opts.rolePrefix))))

/-- `PostgresDatabaseManagement.deleteTenant`: DROP DATABASE (with FORCE when
configured), remove the stored descriptor, and DROP ROLE unless the role is
the connecting admin user.  `role` and `database` come from the stored
descriptor. -/
def postgresDatabaseDeleteTenant (useForce : Bool) (adminUser : Option String)
    (resourceId : Option String) (tenantId role database : String) : List DbAction :=
  [ DbAction.query (if useForce then "DROP DATABASE " ++ dq ++ database ++ dq ++ " WITH (FORCE);"
      else "DROP DATABASE " ++ dq ++ database ++ dq ++ ";"),
    DbAction.removeSecret
      (getPath (managerPattern none (postgresGetPattern resourceId)) resourceId tenantId) ]
  ++ (if adminUser == some role then []
      else [DbAction.query ("DROP ROLE " ++ dq ++ role ++ dq ++ ";")])

def pgbCreateNotSupportedMsg : String :=
  "Tenant creation is not supported when pgBouncer is configured in transaction mode. Database creations are not possible inside transaction. Please use a different configuration and/or multi-tenant strategy."

def pgbDeleteNotSupportedMsg : String :=
  "Tenant deletion is not supported when pgBouncer is configured in transaction mode. Database deletions are not possible inside transaction. Please use a different configuration and/or multi-tenant strategy."

def pgbNotUpdatedWarn : String :=
  "Tenant database and role created, but PgBouncer was not updated. You must manually update PgBouncer to grant access to the new database."

/-- `PgBouncerDatabaseManagement.createTenant`: refuse under
`transaction_mode` before doing anything, else run the plain Database
provisioning and warn that PgBouncer itself was not updated. -/
def pgbDatabaseCreateTenant (poolMode : String) (opts : DbProvisionOpts)
    (resourceId : Option String) (tenantId password : String) :
    Except String (List DbAction) :=
  if poolMode == "transaction_mode" then Except.error pgbCreateNotSupportedMsg
  else Except.ok (postgresDatabaseCreateTenant opts resourceId tenantId password
    ++ [DbAction.warn pgbNotUpdatedWarn])

/-- `PgBouncerDatabaseManagement.deleteTenant`: refuse under
`transaction_mode` before doing anything, else run the plain Database
deprovisioning. -/
def pgbDatabaseDeleteTenant (poolMode : String) (useForce : Bool) (adminUser : Option String)
    (resourceId : Option String) (tenantId role database : String) :
    Except String (List DbAction) :=
  if poolMode == "transaction_mode" then Except.error pgbDeleteNotSupportedMsg
  else Except.ok (postgresDatabaseDeleteTenant useForce adminUser resourceId tenantId role database)

/-- C4: with a pgbouncer pool in `transaction_mode`, every `createTenant` and
every `deleteTenant` of the Database strategy fails with the explicit
configuration error and issues no action at all (no DDL, no secret-store
access), while any other mode proceeds to the provisioning actions. -/
theorem c4_database_transaction_mode_fail_fast (opts : DbProvisionOpts)
    (resourceId adminUser : Option String) (tenantId password role database : String)
    (useForce : Bool) :
    pgbDatabaseCreateTenant "transaction_mode" opts resourceId tenantId password
      = Except.error pgbCreateNotSupportedMsg
    ∧ pgbDatabaseDeleteTenant "transaction_mode" useForce adminUser resourceId tenantId role database
      = Except.error pgbDeleteNotSupportedMsg
    ∧ (∀ acts, pgbDatabaseCreateTenant "transaction_mode" opts resourceId tenantId password
        ≠ Except.ok acts)
    ∧ pgbDatabaseCreateTenant "session_mode" opts resourceId tenantId password
      = Except.ok (postgresDatabaseCreateTenant opts resourceId tenantId password
          ++ [DbAction.warn pgbNotUpdatedWarn]) := by
  refine ⟨rfl, rfl, fun acts => ?_, rfl⟩
  simp [pgbDatabaseCreateTenant]

/-- Witness for C4 at tenant `acme` with the default provisioning options. -/
theorem c4_database_transaction_mode_fail_fast_witness :
    pgbDatabaseCreateTenant "transaction_mode"
        ⟨DEFAULT_TENANT_DB_PREFIX, none, DEFAULT_TENANT_ROLE_PREFIX, ["public"], true⟩
        none "acme" "pw" = Except.error pgbCreateNotSupportedMsg
    ∧ pgbDatabaseDeleteTenant "transaction_mode" false (some "testuser") none "acme"
        "tenant_acme" "tenant_acme" = Except.error pgbDeleteNotSupportedMsg :=
  ⟨(c4_database_transaction_mode_fail_fast
      ⟨DEFAULT_TENANT_DB_PREFIX, none, DEFAULT_TENANT_ROLE_PREFIX, ["public"], true⟩
      none (some "testuser") "acme" "pw" "tenant_acme" "tenant_acme" false).1,
    (c4_database_transaction_mode_fail_fast
      ⟨DEFAULT_TENANT_DB_PREFIX, none, DEFAULT_TENANT_ROLE_PREFIX, ["public"], true⟩
      none (some "testuser") "acme" "pw" "tenant_acme" "tenant_acme" false).2.1⟩

/-! ### PgBouncer RLS Tenants role: `getClientFor` / `queryAs`
(packages/postgres/src/pgbouncer/strategies/rls.ts).

A database round trip is modelled by an oracle `db : String → Except E R`
giving the outcome of each `client.query(cmd)`; `queryAs` returns the ordered
list of commands issued together with the propagated result.  Whitespace in
the multi-line SQL template literals is normalised to single spaces. -/

def DEFAULT_SETTINGS_TENANT_FIELD : String := "app.current_tenant"
def DEFAULT_ROLE : String := "tenant_role"

/-- The session-mode settings command of `PgBouncerRlsTenants.getClientFor`. -/
def pgbRlsSessionSetSql (id : String) : String :=
  "SELECT set_config('" ++ DEFAULT_SETTINGS_TENANT_FIELD ++ "', '" ++ id
    ++ "', false); SELECT set_config('role', '" ++ DEFAULT_ROLE ++ "', false);"

/-- The transaction-mode command of `PgBouncerRlsTenants.getClientFor`:
`BEGIN` plus the two transaction-local (`set_config(..., true)`) settings in
one round trip. -/
def pgbRlsBeginSql (id : String) : String :=
  "BEGIN; SELECT set_config('" ++ DEFAULT_SETTINGS_TENANT_FIELD ++ "', '" ++ id
    ++ "', true); SELECT set_config('role', '" ++ DEFAULT_ROLE ++ "', true);"

inductive RouterError (E : Type) where
  | db (e : E)
  | invalidMode
  deriving DecidableEq

/-- `PgBouncerRlsTenants.getClientFor`: apply the tenant settings per mode; in
transaction mode a failure of the BEGIN command triggers a best-effort
ROLLBACK (its own failure only logged) and the original error propagates. -/
def pgbRlsGetClientFor {E R : Type} (db : String → Except E R) (poolMode : Option String)
    (id : String) : List String × Except (RouterError E) Unit :=
  if poolMode == some "session_mode" then
    match db (pgbRlsSessionSetSql id) with
    | Except.ok _ => ([pgbRlsSessionSetSql id], Except.ok ())
    | Except.error e => ([pgbRlsSessionSetSql id], Except.error (RouterError.db e))
  else if poolMode == some "transaction_mode" then
    match db (pgbRlsBeginSql id) with
    | Except.ok _ => ([pgbRlsBeginSql id], Except.ok ())
    | Except.error e => ([pgbRlsBeginSql id, "ROLLBACK"], Except.error (RouterError.db e))
  else ([], Except.error RouterError.invalidMode)

/-- `PgBouncerRlsTenants.queryAs`: get a tenant client, run the query; in
transaction mode follow with COMMIT, and on failure of the query or the
COMMIT attempt a ROLLBACK (its own failure only logged) and re-raise the
original error. -/
def pgbRlsQueryAs {E R : Type} (db : String → Except E R) (poolMode : Option String)
    (id q : String) : List String × Except (RouterError E) R :=
  let g := pgbRlsGetClientFor db poolMode id
  match g.2 with
  | Except.error e => (g.1, Except.error e)
  | Except.ok _ =>
    if poolMode == some "transaction_mode" then
      match db q with
      | Except.error e => (g.1 ++ [q, "ROLLBACK;"], Except.error (RouterError.db e))
      | Except.ok r =>
        match db "COMMIT;" with
        | Except.ok _ => (g.1 ++ [q, "COMMIT;"], Except.ok r)
        | Except.error e =>
          (g.1 ++ [q, "COMMIT;", "ROLLBACK;"], Except.error (RouterError.db e))
    else
      match db q with
      | Except.ok r => (g.1 ++ [q], Except.ok r)
      | Except.error e => (g.1 ++ [q], Except.error (RouterError.db e))

/-- C3: under pgbouncer `transaction_mode`, `queryAs` issues BEGIN with the
transaction-local settings, the query, then COMMIT; on failure of any step a
ROLLBACK is attempted and the original error — never the rollback's — is what
propagates, whatever the oracle answers for the ROLLBACK commands. -/
theorem c3_transaction_mode_query_wrapper {E R : Type} (db : String → Except E R)
    (id q : String) :
    (∀ u r c, db (pgbRlsBeginSql id) = Except.ok u → db q = Except.ok r →
      db "COMMIT;" = Except.ok c →
      pgbRlsQueryAs db (some "transaction_mode") id q
        = ([pgbRlsBeginSql id, q, "COMMIT;"], Except.ok r))
    ∧ (∀ u e, db (pgbRlsBeginSql id) = Except.ok u → db q = Except.error e →
      pgbRlsQueryAs db (some "transaction_mode") id q
        = ([pgbRlsBeginSql id, q, "ROLLBACK;"], Except.error (RouterError.db e)))
    ∧ (∀ u r e, db (pgbRlsBeginSql id) = Except.ok u → db q = Except.ok r →
      db "COMMIT;" = Except.error e →
      pgbRlsQueryAs db (some "transaction_mode") id q
        = ([pgbRlsBeginSql id, q, "COMMIT;", "ROLLBACK;"], Except.error (RouterError.db e)))
    ∧ (∀ e, db (pgbRlsBeginSql id) = Except.error e →
      pgbRlsQueryAs db (some "transaction_mode") id q
        = ([pgbRlsBeginSql id, "ROLLBACK"], Except.error (RouterError.db e))) := by
  refine ⟨?_, ?_, ?_, ?_⟩
  · intro u r c h1 h2 h3
    simp [pgbRlsQueryAs, pgbRlsGetClientFor, h1, h2, h3]
  · intro u e h1 h2
    simp [pgbRlsQueryAs, pgbRlsGetClientFor, h1, h2]
  · intro u r e h1 h2 h3
    simp [pgbRlsQueryAs, pgbRlsGetClientFor, h1, h2, h3]
  · intro e h1
    simp [pgbRlsQueryAs, pgbRlsGetClientFor, h1]

/-- A database oracle on which every command succeeds, answering `1` to the
tenant query. -/
def dbAllOk : String → Except String Nat :=
  fun s => if s = "SELECT 1" then Except.ok 1 else Except.ok 0

/-- A database oracle on which the tenant query fails and the subsequent
rollback fails too, showing the original error is the one propagated. -/
def dbQueryAndRollbackFail : String → Except String Nat :=
  fun s =>
    if s = "SELECT 1" then Except.error "boom"
    else if s = "ROLLBACK;" then Except.error "rollback failed"
    else Except.ok 0

/-- Witness for C3: the success path commits and returns the query result; the
failure path rolls back and propagates the query's own error even though the
rollback itself failed. -/
theorem c3_transaction_mode_query_wrapper_witness :
    pgbRlsQueryAs dbAllOk (some "transaction_mode") "t1" "SELECT 1"
      = ([pgbRlsBeginSql "t1", "SELECT 1", "COMMIT;"], Except.ok 1)
    ∧ pgbRlsQueryAs dbQueryAndRollbackFail (some "transaction_mode") "t1" "SELECT 1"
      = ([pgbRlsBeginSql "t1", "SELECT 1", "ROLLBACK;"],
          Except.error (RouterError.db "boom")) :=
  ⟨(c3_transaction_mode_query_wrapper dbAllOk "t1" "SELECT 1").1 0 1 0
      rfl rfl rfl,
    (c3_transaction_mode_query_wrapper dbQueryAndRollbackFail "t1" "SELECT 1").2.1 0 "boom"
      rfl rfl⟩

/-! ### RLS Management: `setup` and policy conflicts
(packages/postgres/src/index.ts, `PostgresRlsManagement`).

The database state carries the created roles, the tables with RLS enabled
and the existing policies `(schema, table, policyName)`.  `setup` runs inside
BEGIN/COMMIT, so an error rolls the state back to the pre-call state. -/

structure Table where
  name : String
  schema : Option String
  tenantIdColumn : Option String
  deriving DecidableEq

structure PgState where
  roles : List String
  rlsEnabled : List (String × String)
  policies : List (String × String × String)
  deriving DecidableEq

/-- `PostgresRlsManagement.isPolicyCreated`: query `pg_policies` for a policy
of that name on that table. -/
def isPolicyCreated (st : PgState) (schema tableName policyName : String) : Bool :=
  st.policies.contains (schema, tableName, policyName)

def policyConflictMsg (policyName schema tableName : String) : String :=
  "A row-level security (RLS) policy named " ++ dq ++ policyName ++ dq
    ++ " already exists on " ++ schema ++ "." ++ tableName
    ++ ". Multiple policies on the same table can lead to unpredictable behavior and unintended access control issues. To resolve this, modify the existing policy or ensure that group-specific policies do not overlap with the default isolation settings."

/-- `PostgresRlsManagement.enableRlsOverTable`: both branches enable RLS on
the table; `FORCE ROW LEVEL SECURITY` affects only the owner's bypass, not
the policy set. -/
def enableRlsOverTable (forceRlsOnTableOwner : Bool) (st : PgState)
    (tableName schema : String) : PgState :=
  let _ := forceRlsOnTableOwner
  { st with rlsEnabled := (schema, tableName) :: st.rlsEnabled }

/-- `PostgresRlsManagement.createPoliciesOverTable`: raise a conflict when a
same-named `tenant_isolation` or `tenant_insert` policy already exists,
otherwise create the two policies. -/
def createPoliciesOverTable (st : PgState) (t : Table) (schema : String) :
    Except String PgState :=
  if isPolicyCreated st schema t.name "tenant_isolation" then
    Except.error (policyConflictMsg "tenant_isolation" schema t.name)
  else
    let st1 := { st with policies := (schema, t.name, "tenant_isolation") :: st.policies }
    if isPolicyCreated st1 schema t.name "tenant_insert" then
      Except.error (policyConflictMsg "tenant_insert" schema t.name)
    else Except.ok { st1 with policies := (schema, t.name, "tenant_insert") :: st1.policies }

/-- The per-table loop of `setup`: grant (no effect on the modelled state),
enable RLS, create the two policies. -/
def setupTables (forceRlsOnTableOwner : Bool) (cur : String) (st : PgState) :
    List Table → Except String PgState
  | [] => Except.ok st
  | t :: ts =>
    let schema := t.schema.getD cur
    let st1 := enableRlsOverTable forceRlsOnTableOwner st t.name schema
    match createPoliciesOverTable st1 t schema with
    | Except.error e => Except.error e
    | Except.ok st2 => setupTables forceRlsOnTableOwner cur st2 ts

/-- `PostgresRlsManagement.setup`: no tables means warn-and-return; otherwise
create the shared role if absent and process every table inside a
transaction, rolling back (state unchanged) on the first error. -/
def rlsSetup (forceRlsOnTableOwner : Bool) (cur : String) (st : PgState)
    (tables : List Table) : Option String × PgState :=
  match tables with
  | [] => (none, st)
  | _ :: _ =>
    let st0 :=
      if st.roles.contains DEFAULT_ROLE then st
      else { st with roles := DEFAULT_ROLE :: st.roles }
    match setupTables forceRlsOnTableOwner cur st0 tables with
    | Except.ok st' => (none, st')
    | Except.error e => (some e, st)

theorem createPoliciesOverTable_ok (st : PgState) (t : Table) (schema : String)
    (st2 : PgState) (hc : createPoliciesOverTable st t schema = Except.ok st2) :
    (schema, t.name, "tenant_isolation") ∈ st2.policies
    ∧ ∀ p ∈ st.policies, p ∈ st2.policies := by
  unfold createPoliciesOverTable at hc
  by_cases h1 : isPolicyCreated st schema t.name "tenant_isolation" = true
  · rw [if_pos h1] at hc; cases hc
  · rw [if_neg h1] at hc
    by_cases h2 : isPolicyCreated
        { st with policies := (schema, t.name, "tenant_isolation") :: st.policies }
        schema t.name "tenant_insert" = true
    · rw [if_pos h2] at hc; cases hc
    · rw [if_neg h2] at hc
      cases hc
      exact ⟨by simp, fun p hp => by simp [hp]⟩

theorem setupTables_policies_mono (f : Bool) (cur : String) (ts : List Table)
    (st st' : PgState) (h : setupTables f cur st ts = Except.ok st') :
    ∀ p ∈ st.policies, p ∈ st'.policies := by
  induction ts generalizing st with
  | nil =>
    simp only [setupTables] at h
    cases h
    exact fun p hp => hp
  | cons t ts ih =>
    simp only [setupTables] at h
    revert h
    cases hc : createPoliciesOverTable (enableRlsOverTable f st t.name (t.schema.getD cur)) t
        (t.schema.getD cur) with
    | error e => intro h; cases h
    | ok st2 =>
      intro h
      intro p hp
      refine ih st2 h p ?_
      have := (createPoliciesOverTable_ok _ t _ st2 hc).2 p
      exact this (by simpa [enableRlsOverTable] using hp)

/-- C5: if `setup` succeeds on a table list, a second `setup` call on the same
table list raises the policy-conflict error for the first table's
`tenant_isolation` policy, and the already-committed state is left unchanged
(nothing is overwritten or duplicated). -/
theorem c5_rls_setup_twice_conflicts (f : Bool) (cur : String) (st st' : PgState)
    (t : Table) (ts : List Table)
    (h : rlsSetup f cur st (t :: ts) = (none, st')) :
    rlsSetup f cur st' (t :: ts)
      = (some (policyConflictMsg "tenant_isolation" (t.schema.getD cur) t.name), st') := by
  have hmem : (t.schema.getD cur, t.name, "tenant_isolation") ∈ st'.policies := by
    revert h
    simp only [rlsSetup]
    cases hrun : setupTables f cur
        (if st.roles.contains DEFAULT_ROLE then st
          else { st with roles := DEFAULT_ROLE :: st.roles }) (t :: ts) with
    | error e => intro h; cases h
    | ok stf =>
      intro h
      have hst' : stf = st' := by cases h; rfl
      subst hst'
      revert hrun
      simp only [setupTables]
      cases hc : createPoliciesOverTable
          (enableRlsOverTable f
            (if st.roles.contains DEFAULT_ROLE then st
              else { st with roles := DEFAULT_ROLE :: st.roles }) t.name (t.schema.getD cur))
          t (t.schema.getD cur) with
      | error e => intro h'; cases h'
      | ok st2 =>
        intro h'
        exact setupTables_policies_mono f cur ts st2 stf h' _
          (createPoliciesOverTable_ok _ t _ st2 hc).1
  have hcontains : isPolicyCreated st' (t.schema.getD cur) t.name "tenant_isolation" = true := by
    simp only [isPolicyCreated]
    exact List.elem_eq_true_of_mem hmem
  have hpolicies0 :
      (if st'.roles.contains DEFAULT_ROLE then st'
        else { st' with roles := DEFAULT_ROLE :: st'.roles }).policies = st'.policies := by
    split <;> rfl
  simp only [rlsSetup, setupTables]
  have hcontains0 : isPolicyCreated
      (enableRlsOverTable f
        (if st'.roles.contains DEFAULT_ROLE then st'
          else { st' with roles := DEFAULT_ROLE :: st'.roles }) t.name (t.schema.getD cur))
      (t.schema.getD cur) t.name "tenant_isolation" = true := by
    simp only [isPolicyCreated, enableRlsOverTable, hpolicies0]
    exact List.elem_eq_true_of_mem hmem
  simp only [createPoliciesOverTable, hcontains0, if_true]

/-- Witness for C5: an empty database, one table `users` in schema `public`. -/
theorem c5_rls_setup_twice_conflicts_witness :
    rlsSetup true "public"
        (rlsSetup true "public" ⟨[], [], []⟩ [⟨"users", none, none⟩]).2
        [⟨"users", none, none⟩]
      = (some (policyConflictMsg "tenant_isolation" "public" "users"),
          (rlsSetup true "public" ⟨[], [], []⟩ [⟨"users", none, none⟩]).2) :=
  c5_rls_setup_twice_conflicts true "public" ⟨[], [], []⟩ _ ⟨"users", none, none⟩ []
    (by decide)

/-! ### RLS Management: `createTenant` auto-setup runs at most once
(packages/postgres/src/index.ts, `PostgresRlsManagement.createTenant`).

`found` models the result of `getMultitenantTablesWithoutRls`; the returned
Bool is the method's own return value, true exactly when the
auto-discovery/setup pass ran.  The `finally` block clears
`options.provision.autoSetup` unconditionally once the branch was entered. -/

structure TableInfo where
  name : String
  schema : String
  deriving DecidableEq

structure RlsCreateOpts where
  autoSetup : Bool
  tables : Option (List Table)
  autoDetectTables : Bool
  deriving DecidableEq

/-- `PostgresRlsManagement.createTenant` restricted to its auto-setup
behaviour. -/
def rlsCreateTenantAuto (opts : RlsCreateOpts) (found : List TableInfo) :
    Bool × RlsCreateOpts :=
  if opts.autoSetup then
    let ran :=
      if found.isEmpty then false
      else
        match opts.tables with
        | some ts =>
          !(found.filter
              (fun tb => ts.any (fun t => t.name == tb.name && t.schema == some tb.schema))).isEmpty
        | none => opts.autoDetectTables
    (ran, { opts with autoSetup := false })
  else (false, opts)

/-- A sequence of `createTenant` calls on the same instance, returning the
per-call "the auto pass ran" flags. -/
def rlsRunSeq (opts : RlsCreateOpts) : List (List TableInfo) → List Bool
  | [] => []
  | f :: fs =>
    let r := rlsCreateTenantAuto opts f
    r.1 :: rlsRunSeq r.2 fs

theorem rlsRunSeq_all_false (opts : RlsCreateOpts) (fs : List (List TableInfo))
    (h : opts.autoSetup = false) : (rlsRunSeq opts fs).count true = 0 := by
  induction fs with
  | nil => rfl
  | cons f fs ih =>
    simp only [rlsRunSeq, rlsCreateTenantAuto, h, Bool.false_eq_true, if_false]
    simp [List.count_cons, ih]

/-- C8: over any sequence of `createTenant` calls on one RLS Management
instance, the auto-discovery-and-setup pass runs during at most one call —
the `finally` block disables `autoSetup` as soon as the first call enters the
branch, so no later call ever runs setup again. -/
theorem c8_auto_setup_at_most_once (opts : RlsCreateOpts)
    (fs : List (List TableInfo)) : (rlsRunSeq opts fs).count true ≤ 1 := by
  induction fs with
  | nil => simp [rlsRunSeq]
  | cons f fs _ =>
    by_cases h : opts.autoSetup = true
    · have htail : (rlsRunSeq (rlsCreateTenantAuto opts f).2 fs).count true = 0 := by
        refine rlsRunSeq_all_false _ fs ?_
        simp [rlsCreateTenantAuto, h]
      simp only [rlsRunSeq, List.count_cons, htail]
      split <;> simp
    · have h' : opts.autoSetup = false := by simpa using h
      have := rlsRunSeq_all_false opts (f :: fs) h'
      omega

/-! ### SQL string interpolation and quoting
(`PostgresRlsTenants.getClientFor` in packages/postgres/src/index.ts,
`PostgresSchemaManagement.createTenant` in strategies/schema.ts).

The source interpolates tenant ids between quote characters without any
escaping.  `quotedScan` recovers, from the issued command text, the list of
quoted spans as a SQL parser would (a doubled quote inside a span is the
escape for one quote character); the command's structure is unchanged by the
interpolation iff the interpolated value comes back as exactly one span. -/

inductive ScanState where
  | outside
  | inside
  | afterQuote
  deriving DecidableEq

def quotedScan (q : Char) : List Char → ScanState → List Char → List String
  | [], ScanState.outside, _ => []
  | [], ScanState.inside, acc => [String.mk acc.reverse]
  | [], ScanState.afterQuote, acc => [String.mk acc.reverse]
  | c :: cs, ScanState.outside, acc =>
    if c = q then quotedScan q cs ScanState.inside []
    else quotedScan q cs ScanState.outside acc
  | c :: cs, ScanState.inside, acc =>
    if c = q then quotedScan q cs ScanState.afterQuote acc
    else quotedScan q cs ScanState.inside (c :: acc)
  | c :: cs, ScanState.afterQuote, acc =>
    if c = q then quotedScan q cs ScanState.inside (q :: acc)
    else String.mk acc.reverse :: quotedScan q cs ScanState.outside []

def sqlSingleQuoted (s : String) : List String :=
  quotedScan squote s.data ScanState.outside []

def sqlDoubleQuoted (s : String) : List String :=
  quotedScan dquoteC s.data ScanState.outside []

theorem quotedScan_skip (q : Char) (T rest : List Char) (acc : List Char)
    (h : ∀ c ∈ T, c ≠ q) :
    quotedScan q (T ++ rest) ScanState.outside acc
      = quotedScan q rest ScanState.outside acc := by
  induction T generalizing acc with
  | nil => rfl
  | cons c T ih =>
    simp only [List.cons_append, quotedScan]
    rw [if_neg (h c (by simp))]
    exact ih _ (fun x hx => h x (by simp [hx]))

theorem quotedScan_inside (q : Char) (content : List Char) (rest : List Char)
    (acc : List Char) (hcontent : ∀ c ∈ content, c ≠ q)
    (hrest : rest.head? ≠ some q) :
    quotedScan q (content ++ q :: rest) ScanState.inside acc
      = String.mk (acc.reverse ++ content) :: quotedScan q rest ScanState.outside [] := by
  induction content generalizing acc with
  | nil =>
    show quotedScan q (q :: rest) ScanState.inside acc = _
    simp only [quotedScan]
    rw [if_pos trivial]
    cases rest with
    | nil => simp [quotedScan]
    | cons c2 cs2 =>
      have hc2 : c2 ≠ q := by
        intro hcontra
        exact hrest (by simp [hcontra])
      simp only [quotedScan]
      rw [if_neg hc2]
      have houter : quotedScan q (c2 :: cs2) ScanState.outside []
          = quotedScan q cs2 ScanState.outside [] := by
        simp only [quotedScan]
        rw [if_neg hc2]
      simp [houter, hc2]
  | cons c content ih =>
    show quotedScan q (c :: (content ++ q :: rest)) ScanState.inside acc = _
    simp only [quotedScan]
    rw [if_neg (hcontent c (by simp))]
    have hih := ih (c :: acc) (fun x hx => hcontent x (by simp [hx]))
    simp only [List.append_eq] at hih ⊢
    rw [hih]
    simp

theorem quotedScan_enter (q : Char) (content rest : List Char) (acc : List Char)
    (hcontent : ∀ c ∈ content, c ≠ q) (hrest : rest.head? ≠ some q) :
    quotedScan q (q :: (content ++ q :: rest)) ScanState.outside acc
      = String.mk content :: quotedScan q rest ScanState.outside [] := by
  show quotedScan q (q :: (content ++ q :: rest)) ScanState.outside acc = _
  simp only [quotedScan]
  rw [if_pos trivial, quotedScan_inside q content rest [] hcontent hrest]
  simp

theorem strdata_append_head_ne (s : String) (Y : List Char) (q : Char)
    (hs : s.data.head? ≠ some q) (hne : s.data ≠ []) :
    (s.data ++ Y).head? ≠ some q := by
  cases hd : s.data with
  | nil => exact absurd hd hne
  | cons a xs => simp_all

/-- The SQL issued by the plain `PostgresRlsTenants.getClientFor` (whitespace
normalised): two `set_config` calls with the raw tenant id spliced between
single quotes. -/
def rlsGetClientForSql (id : String) : String :=
  "SELECT set_config('" ++ DEFAULT_SETTINGS_TENANT_FIELD ++ "', '" ++ id
    ++ "', false); SELECT set_config('role', '" ++ DEFAULT_ROLE ++ "', false);"

/-- `CREATE SCHEMA "<schemaName>";` from `PostgresSchemaManagement.createTenant`,
with the schema name spliced raw between double quotes. -/
def schemaCreateSchemaSql (schemaName : String) : String :=
  "CREATE SCHEMA " ++ dq ++ schemaName ++ dq ++ ";"

def rlsSqlPrefix : List Char := "SELECT set_config('app.current_tenant', '".data

def rlsSqlSuffix : List Char :=
  "', false); SELECT set_config('role', 'tenant_role', false);".data

theorem rlsGetClientForSql_data (id : String) :
    (rlsGetClientForSql id).data = rlsSqlPrefix ++ (id.data ++ rlsSqlSuffix) := by
  have h1 : rlsSqlPrefix
      = "SELECT set_config('".data ++ ("app.current_tenant".data ++ "', '".data) := by decide
  have h2 : rlsSqlSuffix
      = "', false); SELECT set_config('role', '".data
        ++ ("tenant_role".data ++ "', false);".data) := by decide
  simp [rlsGetClientForSql, DEFAULT_SETTINGS_TENANT_FIELD, DEFAULT_ROLE,
    string_append_data, h1, h2, List.append_assoc]

/-- C2 fails on the code: the tenant id is spliced into the `set_config`
command with no escaping, so for the tenant id `a'b` — which contains a quote
character — the issued command's quoted spans are not the four expected
literals with the id as the second: the structure of the command changes. -/
theorem c2_interpolation_not_escaped_counterexample :
    sqlSingleQuoted (rlsGetClientForSql "a'b")
      ≠ [DEFAULT_SETTINGS_TENANT_FIELD, "a'b", "role", DEFAULT_ROLE] := by decide

/-- C2 amended: the code only wraps interpolated values in quotes and never
escapes them, so the structure of the issued commands is preserved exactly for
values free of the relevant quote character: a single-quote-free tenant id
comes back as precisely the second single-quoted span of the `set_config`
command, and a double-quote-free schema name as the unique double-quoted
identifier of the `CREATE SCHEMA` command. -/
theorem c2_interpolation_quote_free (id tenantId : String)
    (h : ∀ c ∈ id.data, c ≠ squote)
    (h2 : ∀ c ∈ tenantId.data, c ≠ dquoteC) :
    sqlSingleQuoted (rlsGetClientForSql id)
      = [DEFAULT_SETTINGS_TENANT_FIELD, id, "role", DEFAULT_ROLE]
    ∧ sqlDoubleQuoted
        (schemaCreateSchemaSql (DEFAULT_TENANT_SCHEMA_PREFIX ++ tenantId))
      = [DEFAULT_TENANT_SCHEMA_PREFIX ++ tenantId] := by
  constructor
  · show quotedScan squote (rlsGetClientForSql id).data ScanState.outside [] = _
    rw [rlsGetClientForSql_data]
    have hsplit : rlsSqlPrefix ++ (id.data ++ rlsSqlSuffix)
        = "SELECT set_config(".data
          ++ (squote :: ("app.current_tenant".data
            ++ squote :: (", ".data
              ++ squote :: (id.data
                ++ squote :: ", false); SELECT set_config('role', 'tenant_role', false);".data)))) := by
      have hp : rlsSqlPrefix = "SELECT set_config(".data
          ++ (squote :: ("app.current_tenant".data ++ squote :: (", ".data ++ [squote]))) := by
        decide
      have hs : rlsSqlSuffix
          = squote :: ", false); SELECT set_config('role', 'tenant_role', false);".data := by
        decide
      rw [hp, hs]
      simp [List.append_assoc]
    rw [hsplit]
    rw [quotedScan_skip squote "SELECT set_config(".data _ [] (by decide)]
    rw [quotedScan_enter squote "app.current_tenant".data _ [] (by decide)
      (strdata_append_head_ne ", " _ squote (by decide) (by decide))]
    rw [quotedScan_skip squote ", ".data _ [] (by decide)]
    rw [quotedScan_enter squote id.data _ [] h (by decide)]
    have htail : quotedScan squote
        ", false); SELECT set_config('role', 'tenant_role', false);".data
        ScanState.outside [] = ["role", "tenant_role"] := by decide
    rw [htail]
    rfl
  · show quotedScan dquoteC (schemaCreateSchemaSql _).data ScanState.outside [] = _
    have hname : ∀ c ∈ (DEFAULT_TENANT_SCHEMA_PREFIX ++ tenantId).data, c ≠ dquoteC := by
      intro c hc
      rw [string_append_data] at hc
      rcases List.mem_append.mp hc with hc' | hc'
      · exact (by decide : ∀ x ∈ DEFAULT_TENANT_SCHEMA_PREFIX.data, x ≠ dquoteC) c hc'
      · exact h2 c hc'
    have hdata : (schemaCreateSchemaSql (DEFAULT_TENANT_SCHEMA_PREFIX ++ tenantId)).data
        = "CREATE SCHEMA ".data
          ++ (dquoteC :: ((DEFAULT_TENANT_SCHEMA_PREFIX ++ tenantId).data
            ++ dquoteC :: ";".data)) := by
      have hdq : dq.data = [dquoteC] := by decide
      simp [schemaCreateSchemaSql, string_append_data, hdq, List.append_assoc]
    rw [hdata]
    rw [quotedScan_skip dquoteC "CREATE SCHEMA ".data _ [] (by decide)]
    rw [quotedScan_enter dquoteC (DEFAULT_TENANT_SCHEMA_PREFIX ++ tenantId).data _ []
      hname (by decide)]
    have htail : quotedScan dquoteC ";".data ScanState.outside [] = [] := by decide
    rw [htail]

/-- Witness for the amended C2 at tenantId `acme`. -/
theorem c2_interpolation_quote_free_witness :
    sqlSingleQuoted (rlsGetClientForSql "acme")
      = [DEFAULT_SETTINGS_TENANT_FIELD, "acme", "role", DEFAULT_ROLE]
    ∧ sqlDoubleQuoted (schemaCreateSchemaSql (DEFAULT_TENANT_SCHEMA_PREFIX ++ "acme"))
      = [DEFAULT_TENANT_SCHEMA_PREFIX ++ "acme"] :=
  c2_interpolation_quote_free "acme" "acme" (by decide) (by decide)

/-! ### Credential Manager: store/get round trip
(`TenantsSecretsManager.store` / `get` in packages/core/src/index.ts).

`store` writes `JSON.stringify(secret)` at the tenant's path through the
provider's `createSecret`; `get` reads the same path and `JSON.parse`s the
returned string, propagating a parse failure (`MalformedSecret`) as `none`.
The descriptor is modelled as a flat JSON object — ordered fields with
string / integer / boolean / null values, the shapes the strategies store —
`jsonStringifyObj` mirrors `JSON.stringify` on such values and `jsonParseObj`
the corresponding part of `JSON.parse`.  Control characters (below 0x20),
which `JSON.stringify` escapes numerically, are excluded by `strWf`. -/

inductive JVal where
  | s (v : String)
  | n (v : Int)
  | b (v : Bool)
  | nul
  deriving DecidableEq

def bslashC : Char := Char.ofNat 92
def obraceC : Char := Char.ofNat 123
def cbraceC : Char := Char.ofNat 125

def escChar (c : Char) : List Char :=
  if c = dquoteC ∨ c = bslashC then [bslashC, c] else [c]

def escList : List Char → List Char
  | [] => []
  | c :: cs => escChar c ++ escList cs

def strWf (s : String) : Prop := ∀ c ∈ s.data, 32 ≤ c.toNat

def jvalWf : JVal → Prop
  | JVal.s v => strWf v
  | _ => True

def quoteChars (s : String) : List Char := dquoteC :: (escList s.data ++ [dquoteC])

def natToDigits (n : Nat) : List Char :=
  if h : n < 10 then [Char.ofNat (48 + n)]
  else natToDigits (n / 10) ++ [Char.ofNat (48 + n % 10)]
  decreasing_by exact Nat.div_lt_self (by omega) (by omega)

def intToChars (i : Int) : List Char :=
  if i < 0 then '-' :: natToDigits i.natAbs else natToDigits i.natAbs

def jsonStringifyVal : JVal → List Char
  | JVal.s v => quoteChars v
  | JVal.n v => intToChars v
  | JVal.b true => "true".data
  | JVal.b false => "false".data
  | JVal.nul => "null".data

def jsonStringifyFields : List (String × JVal) → List Char
  | [] => []
  | [(k, v)] => quoteChars k ++ ':' :: jsonStringifyVal v
  | (k, v) :: f2 :: fs =>
    quoteChars k ++ ':' :: jsonStringifyVal v ++ ',' :: jsonStringifyFields (f2 :: fs)

def jsonStringifyObj (fields : List (String × JVal)) : String :=
  String.mk (obraceC :: (jsonStringifyFields fields ++ [cbraceC]))

/-- String-literal parser (after the opening quote): the Bool is "the previous
character was a backslash"; raw control characters are rejected as
`JSON.parse` does. -/
def parseStrAux : List Char → Bool → List Char → Option (String × List Char)
  | [], _, _ => none
  | c :: cs, true, acc =>
    if c = dquoteC ∨ c = bslashC then parseStrAux cs false (c :: acc) else none
  | c :: cs, false, acc =>
    if c = dquoteC then some (String.mk acc.reverse, cs)
    else if c = bslashC then parseStrAux cs true acc
    else if 32 ≤ c.toNat then parseStrAux cs false (c :: acc) else none

def digitsToNat (ds : List Char) : Nat :=
  ds.foldl (fun a c => 10 * a + (c.toNat - 48)) 0

def parseNum : List Char → Option (Int × List Char)
  | [] => none
  | c :: cs =>
    if c = '-' then
      let ds := cs.takeWhile Char.isDigit
      if ds.isEmpty then none
      else some (-(Int.ofNat (digitsToNat ds)), cs.drop ds.length)
    else
      let ds := (c :: cs).takeWhile Char.isDigit
      if ds.isEmpty then none
      else some (Int.ofNat (digitsToNat ds), (c :: cs).drop ds.length)

def parseVal (l : List Char) : Option (JVal × List Char) :=
  match l with
  | [] => none
  | c :: cs =>
    if c = dquoteC then
      (parseStrAux cs false []).map (fun p => (JVal.s p.1, p.2))
    else if "true".data.isPrefixOf l then some (JVal.b true, l.drop 4)
    else if "false".data.isPrefixOf l then some (JVal.b false, l.drop 5)
    else if "null".data.isPrefixOf l then some (JVal.nul, l.drop 4)
    else (parseNum l).map (fun p => (JVal.n p.1, p.2))

def parseFieldsAux : Nat → List Char → Option (List (String × JVal) × List Char)
  | 0, _ => none
  | _ + 1, [] => none
  | fuel + 1, c :: cs =>
    if c = dquoteC then
      match parseStrAux cs false [] with
      | none => none
      | some (k, r1) =>
        match r1 with
        | ':' :: r2 =>
          match parseVal r2 with
          | none => none
          | some (v, r3) =>
            match r3 with
            | [] => none
            | c3 :: r4 =>
              if c3 = ',' then
                (parseFieldsAux fuel r4).map (fun p => ((k, v) :: p.1, p.2))
              else if c3 = cbraceC then some ([(k, v)], r4)
              else none
        | _ => none
    else none

def jsonParseObj (s : String) : Option (List (String × JVal)) :=
  match s.data with
  | [] => none
  | c :: cs =>
    if c = obraceC then
      match cs with
      | [] => none
      | c2 :: cs2 =>
        if c2 = cbraceC ∧ cs2 = [] then some []
        else
          match parseFieldsAux cs.length cs with
          | some (fs, []) => some fs
          | _ => none
    else none

theorem parseStrAux_round (s : List Char) (rest acc : List Char)
    (hwf : ∀ c ∈ s, 32 ≤ c.toNat) :
    parseStrAux (escList s ++ dquoteC :: rest) false acc
      = some (String.mk (acc.reverse ++ s), rest) := by
  induction s generalizing acc with
  | nil =>
    show parseStrAux (dquoteC :: rest) false acc = _
    simp [parseStrAux]
  | cons c s ih =>
    show parseStrAux ((escChar c ++ escList s) ++ dquoteC :: rest) false acc = _
    by_cases hc : c = dquoteC ∨ c = bslashC
    · have hform : (escChar c ++ escList s) ++ dquoteC :: rest
          = bslashC :: c :: (escList s ++ dquoteC :: rest) := by
        simp [escChar, hc]
      rw [hform]
      show parseStrAux (bslashC :: c :: (escList s ++ dquoteC :: rest)) false acc = _
      have hbs1 : ¬ bslashC = dquoteC := by decide
      simp only [parseStrAux, if_neg hbs1, if_pos rfl, if_pos hc]
      rw [ih (c :: acc) (fun x hx => hwf x (by simp [hx]))]
      simp
    · push_neg at hc
      have hform : (escChar c ++ escList s) ++ dquoteC :: rest
          = c :: (escList s ++ dquoteC :: rest) := by
        simp [escChar, hc.1, hc.2]
      rw [hform]
      have hnum : 32 ≤ c.toNat := hwf c (by simp)
      simp only [parseStrAux, if_neg hc.1, if_neg hc.2, if_pos hnum]
      rw [ih (c :: acc) (fun x hx => hwf x (by simp [hx]))]
      simp

theorem natToDigits_ne_nil (n : Nat) : natToDigits n ≠ [] := by
  rw [natToDigits]
  split <;> simp

theorem natToDigits_digits (n : Nat) : ∀ c ∈ natToDigits n, c.isDigit = true := by
  induction n using Nat.strong_induction_on with
  | _ n ih =>
    rw [natToDigits]
    split
    · next h =>
      intro c hc
      simp only [List.mem_singleton] at hc
      subst hc
      interval_cases n <;> decide
    · next h =>
      intro c hc
      rw [List.mem_append] at hc
      rcases hc with hc | hc
      · exact ih (n / 10) (Nat.div_lt_self (by omega) (by omega)) c hc
      · simp only [List.mem_singleton] at hc
        subst hc
        have h10 : n % 10 < 10 := Nat.mod_lt _ (by omega)
        set m := n % 10 with hm
        interval_cases m <;> decide

theorem digitsToNat_append (ds : List Char) (c : Char) :
    digitsToNat (ds ++ [c]) = 10 * digitsToNat ds + (c.toNat - 48) := by
  simp [digitsToNat, List.foldl_append]

theorem digitsToNat_natToDigits (n : Nat) : digitsToNat (natToDigits n) = n := by
  induction n using Nat.strong_induction_on with
  | _ n ih =>
    rw [natToDigits]
    split
    · next h =>
      interval_cases n <;> decide
    · next h =>
      rw [digitsToNat_append, ih (n / 10) (Nat.div_lt_self (by omega) (by omega))]
      have h10 : n % 10 < 10 := Nat.mod_lt _ (by omega)
      set m := n % 10 with hm
      have hch : (Char.ofNat (48 + m)).toNat = 48 + m := by
        interval_cases m <;> decide
      rw [hch]
      omega

theorem takeWhile_digits_append (ds rest : List Char)
    (hds : ∀ c ∈ ds, c.isDigit = true)
    (hrest : ∀ c, rest.head? = some c → c.isDigit = false) :
    (ds ++ rest).takeWhile Char.isDigit = ds := by
  induction ds with
  | nil =>
    cases rest with
    | nil => rfl
    | cons r rs =>
      simp only [List.nil_append, List.takeWhile]
      rw [hrest r rfl]
  | cons d ds ih =>
    simp only [List.cons_append, List.takeWhile, hds d (by simp)]
    have hih := ih (fun c hc => hds c (by simp [hc]))
    simp only [List.append_eq] at hih ⊢
    rw [hih]

theorem parseNum_round (i : Int) (rest : List Char)
    (hrest : ∀ c, rest.head? = some c → c.isDigit = false) :
    parseNum (intToChars i ++ rest) = some (i, rest) := by
  have hkey : ∀ n : Nat, parseNum (natToDigits n ++ rest) = some (Int.ofNat n, rest) := by
    intro n
    obtain ⟨d, ds, hd⟩ : ∃ d ds, natToDigits n = d :: ds := by
      cases hh : natToDigits n with
      | nil => exact absurd hh (natToDigits_ne_nil n)
      | cons d ds => exact ⟨d, ds, rfl⟩
    have hddig : d.isDigit = true := natToDigits_digits n d (by rw [hd]; simp)
    have hdm : ¬ d = '-' := by
      intro hcontra
      rw [hcontra] at hddig
      exact absurd hddig (by decide)
    have htake : ((d :: ds) ++ rest).takeWhile Char.isDigit = d :: ds :=
      takeWhile_digits_append (d :: ds) rest
        (fun c hc => natToDigits_digits n c (by rw [hd]; exact hc)) hrest
    rw [hd]
    show parseNum (d :: (ds ++ rest)) = _
    simp only [parseNum, if_neg hdm]
    have hconsapp : d :: (ds ++ rest) = (d :: ds) ++ rest := rfl
    rw [hconsapp, htake]
    have hne : (d :: ds).isEmpty = false := rfl
    simp only [hne, Bool.false_eq_true, if_false]
    rw [List.drop_left, ← hd, digitsToNat_natToDigits]
  by_cases hi : i < 0
  · have hform : intToChars i ++ rest = '-' :: (natToDigits i.natAbs ++ rest) := by
      simp [intToChars, hi]
    rw [hform]
    obtain ⟨d, ds, hd⟩ : ∃ d ds, natToDigits i.natAbs = d :: ds := by
      cases hh : natToDigits i.natAbs with
      | nil => exact absurd hh (natToDigits_ne_nil _)
      | cons d ds => exact ⟨d, ds, rfl⟩
    have htake : (natToDigits i.natAbs ++ rest).takeWhile Char.isDigit
        = natToDigits i.natAbs :=
      takeWhile_digits_append _ rest (natToDigits_digits _) hrest
    simp only [parseNum, if_pos rfl]
    rw [htake]
    have hne : (natToDigits i.natAbs).isEmpty = false := by
      rw [hd]; rfl
    simp only [hne, Bool.false_eq_true, if_false]
    rw [List.drop_left, digitsToNat_natToDigits]
    have hcoe : Int.ofNat i.natAbs = -i := by
      rw [Int.ofNat_eq_coe]
      omega
    rw [hcoe]
    simp
  · have hform : intToChars i ++ rest = natToDigits i.natAbs ++ rest := by
      simp [intToChars, hi]
    rw [hform, hkey]
    have hcoe : Int.ofNat i.natAbs = i := by
      rw [Int.ofNat_eq_coe]
      omega
    rw [hcoe]

theorem isPrefixOf_cons_ne (a : Char) (as : List Char) (b : Char) (bs : List Char)
    (h : ¬ a = b) : (a :: as).isPrefixOf (b :: bs) = false := by
  simp [List.isPrefixOf, h]

theorem parseVal_round (v : JVal) (rest : List Char) (hwf : jvalWf v)
    (hrest : ∀ c, rest.head? = some c → c.isDigit = false) :
    parseVal (jsonStringifyVal v ++ rest) = some (v, rest) := by
  cases v with
  | s str =>
    have hform : jsonStringifyVal (JVal.s str) ++ rest
        = dquoteC :: (escList str.data ++ dquoteC :: rest) := by
      simp [jsonStringifyVal, quoteChars]
    rw [hform]
    simp only [parseVal, if_pos rfl]
    rw [parseStrAux_round str.data rest [] hwf]
    rfl
  | n i =>
    obtain ⟨c, cs, hcons⟩ : ∃ c cs, natToDigits i.natAbs = c :: cs := by
      cases hh : natToDigits i.natAbs with
      | nil => exact absurd hh (natToDigits_ne_nil _)
      | cons c cs => exact ⟨c, cs, rfl⟩
    have hcdig : c.isDigit = true := natToDigits_digits _ c (by rw [hcons]; simp)
    have hhead : c = '-' ∨ c.isDigit = true := Or.inr hcdig
    by_cases hi : i < 0
    · have hform : jsonStringifyVal (JVal.n i) ++ rest
          = '-' :: (natToDigits i.natAbs ++ rest) := by
        simp [jsonStringifyVal, intToChars, hi]
      rw [hform]
      simp only [parseVal,
        if_neg (by decide : ¬ '-' = dquoteC),
        isPrefixOf_cons_ne 't' _ '-' _ (by decide),
        isPrefixOf_cons_ne 'f' _ '-' _ (by decide),
        isPrefixOf_cons_ne 'n' _ '-' _ (by decide),
        Bool.false_eq_true, if_false]
      have := parseNum_round i rest hrest
      rw [show intToChars i ++ rest = '-' :: (natToDigits i.natAbs ++ rest) by
        simp [intToChars, hi]] at this
      rw [this]
      rfl
    · have hform : jsonStringifyVal (JVal.n i) ++ rest
          = c :: (cs ++ rest) := by
        simp [jsonStringifyVal, intToChars, hi, hcons]
      have hcne : ∀ b : Char, b.isDigit = false → ¬ c = b := by
        intro b hb hcontra
        rw [hcontra] at hcdig
        rw [hcdig] at hb
        cases hb
      rw [hform]
      simp only [parseVal,
        if_neg (hcne dquoteC (by decide)),
        isPrefixOf_cons_ne 't' _ c _ (fun h => hcne 't' (by decide) h.symm),
        isPrefixOf_cons_ne 'f' _ c _ (fun h => hcne 'f' (by decide) h.symm),
        isPrefixOf_cons_ne 'n' _ c _ (fun h => hcne 'n' (by decide) h.symm),
        Bool.false_eq_true, if_false]
      have := parseNum_round i rest hrest
      rw [show intToChars i ++ rest = c :: (cs ++ rest) by
        simp [intToChars, hi, hcons]] at this
      rw [this]
      rfl
  | b bv =>
    cases bv with
    | true =>
      have hform : jsonStringifyVal (JVal.b true) ++ rest
          = 't' :: ('r' :: ('u' :: ('e' :: rest))) := rfl
      rw [hform]
      have hpre : "true".data.isPrefixOf ('t' :: ('r' :: ('u' :: ('e' :: rest)))) = true :=
        List.isPrefixOf_iff_prefix.mpr ⟨rest, rfl⟩
      simp only [parseVal, if_neg (by decide : ¬ 't' = dquoteC), hpre, if_true]
      rfl
    | false =>
      have hform : jsonStringifyVal (JVal.b false) ++ rest
          = 'f' :: ('a' :: ('l' :: ('s' :: ('e' :: rest)))) := rfl
      rw [hform]
      have hpre1 : "true".data.isPrefixOf ('f' :: ('a' :: ('l' :: ('s' :: ('e' :: rest)))))
          = false := rfl
      have hpre2 : "false".data.isPrefixOf ('f' :: ('a' :: ('l' :: ('s' :: ('e' :: rest)))))
          = true := List.isPrefixOf_iff_prefix.mpr ⟨rest, rfl⟩
      simp only [parseVal, if_neg (by decide : ¬ 'f' = dquoteC), hpre1, hpre2,
        Bool.false_eq_true, if_false, if_true]
      rfl
  | nul =>
    have hform : jsonStringifyVal JVal.nul ++ rest
        = 'n' :: ('u' :: ('l' :: ('l' :: rest))) := rfl
    rw [hform]
    have hpre1 : "true".data.isPrefixOf ('n' :: ('u' :: ('l' :: ('l' :: rest)))) = false := rfl
    have hpre2 : "false".data.isPrefixOf ('n' :: ('u' :: ('l' :: ('l' :: rest)))) = false := rfl
    have hpre3 : "null".data.isPrefixOf ('n' :: ('u' :: ('l' :: ('l' :: rest)))) = true :=
      List.isPrefixOf_iff_prefix.mpr ⟨rest, rfl⟩
    simp only [parseVal, if_neg (by decide : ¬ 'n' = dquoteC), hpre1, hpre2, hpre3,
      Bool.false_eq_true, if_false, if_true]
    rfl

theorem stringifyFields_length : ∀ fs : List (String × JVal),
    fs.length ≤ (jsonStringifyFields fs).length
  | [] => by simp [jsonStringifyFields]
  | [(k, v)] => by simp [jsonStringifyFields, quoteChars]
  | (k, v) :: f2 :: fs2 => by
    have ih := stringifyFields_length (f2 :: fs2)
    have h1 : jsonStringifyFields ((k, v) :: f2 :: fs2)
        = quoteChars k ++ ':' :: jsonStringifyVal v
          ++ ',' :: jsonStringifyFields (f2 :: fs2) := rfl
    have h2 : (jsonStringifyFields ((k, v) :: f2 :: fs2)).length
        = (quoteChars k ++ ':' :: jsonStringifyVal v
            ++ ',' :: jsonStringifyFields (f2 :: fs2)).length := by rw [h1]
    simp only [List.length_append, List.length_cons] at h2
    simp only [List.length_cons] at ih ⊢
    omega

theorem parseFieldsAux_round (fs : List (String × JVal)) (fuel : Nat)
    (hfs : fs ≠ []) (hfuel : fs.length ≤ fuel)
    (hwf : ∀ kv ∈ fs, strWf kv.1 ∧ jvalWf kv.2) :
    parseFieldsAux fuel (jsonStringifyFields fs ++ [cbraceC]) = some (fs, []) := by
  induction fs generalizing fuel with
  | nil => exact absurd rfl hfs
  | cons f fs ih =>
    obtain ⟨k, v⟩ := f
    cases fuel with
    | zero => simp at hfuel
    | succ fuel =>
      cases fs with
      | nil =>
        have hform : jsonStringifyFields [(k, v)] ++ [cbraceC]
            = dquoteC :: (escList k.data
                ++ dquoteC :: (':' :: (jsonStringifyVal v ++ [cbraceC]))) := by
          simp [jsonStringifyFields, quoteChars]
        rw [hform]
        simp only [parseFieldsAux, if_pos rfl,
          parseStrAux_round k.data _ [] (hwf (k, v) (by simp)).1,
          parseVal_round v [cbraceC] (hwf (k, v) (by simp)).2
            (by intro c hc; simp at hc; subst hc; decide),
          if_neg (by decide : ¬ cbraceC = ','), if_pos (rfl : cbraceC = cbraceC)]
        rfl
      | cons f2 fs2 =>
        have hform : jsonStringifyFields ((k, v) :: f2 :: fs2) ++ [cbraceC]
            = dquoteC :: (escList k.data
                ++ dquoteC :: (':' :: (jsonStringifyVal v
                  ++ ',' :: (jsonStringifyFields (f2 :: fs2) ++ [cbraceC])))) := by
          simp [jsonStringifyFields, quoteChars]
        rw [hform]
        simp only [parseFieldsAux, if_pos rfl,
          parseStrAux_round k.data _ [] (hwf (k, v) (by simp)).1,
          parseVal_round v (',' :: (jsonStringifyFields (f2 :: fs2) ++ [cbraceC]))
            (hwf (k, v) (by simp)).2
            (by intro c hc; simp at hc; subst hc; decide),
          if_pos (rfl : ',' = ','),
          ih fuel (by simp) (by simp at hfuel ⊢; omega)
            (fun kv hkv => hwf kv (by simp [hkv]))]
        rfl

theorem jsonParseObj_round (fs : List (String × JVal))
    (hwf : ∀ kv ∈ fs, strWf kv.1 ∧ jvalWf kv.2) :
    jsonParseObj (jsonStringifyObj fs) = some fs := by
  cases fs with
  | nil => rfl
  | cons f fs' =>
    obtain ⟨k, v⟩ := f
    obtain ⟨tail, htail⟩ : ∃ tail, jsonStringifyFields ((k, v) :: fs')
        = dquoteC :: tail := by
      cases fs' with
      | nil =>
        refine ⟨(escList k.data ++ [dquoteC]) ++ ':' :: jsonStringifyVal v, ?_⟩
        show quoteChars k ++ ':' :: jsonStringifyVal v = _
        simp [quoteChars]
      | cons f2 fs2 =>
        refine ⟨(escList k.data ++ [dquoteC])
          ++ ':' :: (jsonStringifyVal v ++ ',' :: jsonStringifyFields (f2 :: fs2)), ?_⟩
        show quoteChars k ++ ':' :: jsonStringifyVal v
            ++ ',' :: jsonStringifyFields (f2 :: fs2) = _
        simp [quoteChars]
    have hdata : (jsonStringifyObj ((k, v) :: fs')).data
        = obraceC :: (jsonStringifyFields ((k, v) :: fs') ++ [cbraceC]) := rfl
    have hcs : jsonStringifyFields ((k, v) :: fs') ++ [cbraceC]
        = dquoteC :: (tail ++ [cbraceC]) := by rw [htail]; rfl
    have hne2 : ¬ (dquoteC = cbraceC ∧ tail ++ [cbraceC] = []) := by
      intro hcontra
      exact absurd hcontra.1 (by decide)
    have hfields : parseFieldsAux
        (jsonStringifyFields ((k, v) :: fs') ++ [cbraceC]).length
        (jsonStringifyFields ((k, v) :: fs') ++ [cbraceC]) = some ((k, v) :: fs', []) := by
      refine parseFieldsAux_round ((k, v) :: fs') _ (by simp) ?_ hwf
      have hsl := stringifyFields_length ((k, v) :: fs')
      simp only [List.length_cons] at hsl
      simp only [List.length_append, List.length_cons, List.length_nil]
      omega
    show jsonParseObj (String.mk (obraceC :: (jsonStringifyFields ((k, v) :: fs')
        ++ [cbraceC]))) = _
    rw [hcs] at hfields ⊢
    simp only [jsonParseObj, if_pos rfl, if_neg hne2, hfields]
    rfl

/-! The secret store is an association map from paths to the stored strings;
`createSecret` adds a binding, `getSecret` reads one. -/

def SecretStore := List (String × String)

def createSecret (st : SecretStore) (path value : String) : SecretStore :=
  (path, value) :: st

def getSecret (st : SecretStore) (path : String) : Option String :=
  assocFind st path

/-- `TenantsSecretsManager.store`: serialize the descriptor with
`JSON.stringify` and create the secret at the tenant's path. -/
def secretsStore (patr : String) (resourceId : Option String) (st : SecretStore)
    (tenantId : String) (secret : List (String × JVal)) : SecretStore :=
  createSecret st (getPath patr resourceId tenantId) (jsonStringifyObj secret)

/-- `TenantsSecretsManager.get`: read the tenant's path and `JSON.parse` the
string; a missing secret or a parse failure yields `none` (the
SecretNotFound/MalformedSecret errors of the source). -/
def secretsGet (patr : String) (resourceId : Option String) (st : SecretStore)
    (tenantId : String) : Option (List (String × JVal)) :=
  match getSecret st (getPath patr resourceId tenantId) with
  | none => none
  | some str => jsonParseObj str

/-- C7: `store(tenantId, descriptor)` followed by `get(tenantId)`, with no
intervening operation and the secret store returning the stored string
unchanged, yields exactly the stored descriptor — every field, including
strategy-specific ones such as `schema` or `keyPrefix`, survives the
round trip. -/
theorem c7_store_get_round_trip (patr : String) (rid : Option String)
    (st : SecretStore) (tid : String) (d : List (String × JVal))
    (hwf : ∀ kv ∈ d, strWf kv.1 ∧ jvalWf kv.2) :
    secretsGet patr rid (secretsStore patr rid st tid d) tid = some d := by
  have hget : getSecret (secretsStore patr rid st tid d)
      (getPath patr rid tid) = some (jsonStringifyObj d) := by
    simp [secretsStore, createSecret, getSecret, assocFind]
  simp only [secretsGet, hget]
  exact jsonParseObj_round d hwf

instance (s : String) : Decidable (strWf s) :=
  inferInstanceAs (Decidable (∀ c ∈ s.data, 32 ≤ c.toNat))

instance (v : JVal) : Decidable (jvalWf v) :=
  match v with
  | JVal.s str => inferInstanceAs (Decidable (strWf str))
  | JVal.n _ => inferInstanceAs (Decidable True)
  | JVal.b _ => inferInstanceAs (Decidable True)
  | JVal.nul => inferInstanceAs (Decidable True)

/-- Witness for C7: a Schema-strategy descriptor with user, password,
database, schema and keyPrefix fields stored and read back at tenant `acme`. -/
theorem c7_store_get_round_trip_witness :
    secretsGet DEFAULT_SECRETS_PATTERN none
      (secretsStore DEFAULT_SECRETS_PATTERN none [] "acme"
        [("host", JVal.s "localhost"),
         ("user", JVal.s "tenant_acme"),
         ("password", JVal.s "pw123"),
         ("database", JVal.s "testdb"),
         ("schema", JVal.s "tenant_acme"),
         ("keyPrefix", JVal.s "tenant:acme:"),
         ("ssl", JVal.b false),
         ("template", JVal.nul)])
      "acme"
      = some
        [("host", JVal.s "localhost"),
         ("user", JVal.s "tenant_acme"),
         ("password", JVal.s "pw123"),
         ("database", JVal.s "testdb"),
         ("schema", JVal.s "tenant_acme"),
         ("keyPrefix", JVal.s "tenant:acme:"),
         ("ssl", JVal.b false),
         ("template", JVal.nul)] :=
  c7_store_get_round_trip DEFAULT_SECRETS_PATTERN none [] "acme" _ (by decide)

end Fahren
